import Mathlib

/-!
Verification of the candidate-resolution and suggestion-pipeline core of the
obsidian-semantic-search plugin.

The embedding follows the TypeScript source:
  * `src/ui/suggestion.ts` — `Suggestion` resolution (`addSuggestionFile`,
    `addSuggestionHeading`, the section splitter loop, `getLocFromIndex`);
  * `src/ui/linkSuggest.ts` — the trigger scanner (`onTrigger`) and the
    debounced suggestion pipeline (`getSuggestions`).

Strings are embedded as `List Char`; JavaScript numbers used as character
offsets are embedded as `Int` (they may in principle go negative, and no
overflow is reachable at these magnitudes).  External collaborators (the
Fuse.js scoring engine, the retrieval WASM call, the vault) are parameters:
the theorems quantify over their behaviour, exactly as the source treats
their results as opaque inputs.
-/

namespace SemanticSearch

/-- A position produced by `getLocFromIndex` (`Loc` in the source):
1-based line, column (always 0 here), and the original flat offset. -/
structure Loc where
  line : Nat
  col : Nat
  offset : Int
  deriving DecidableEq, Repr

/-- A `Pos`: start and end locations. -/
structure Pos where
  start : Loc
  «end» : Loc
  deriving DecidableEq, Repr

/-- A text section of a document (`Section` in `suggestion.ts`):
accumulated text plus character offsets into the owning document. -/
structure Section where
  text : List Char
  start : Int
  «end» : Int
  deriving DecidableEq, Repr

/-- JavaScript `content.slice(0, index)`: a negative end counts from the end
of the string, and the result is clamped to `[0, content.length]`. -/
def jsSlice0 (content : List Char) (index : Int) : List Char :=
  if index < 0 then content.take (content.length + index).toNat
  else content.take index.toNat

/-- The newline-counting loop of `getLocFromIndex`: the source repeatedly
calls `substr.indexOf("\n", r + 1)` and increments `l` once per occurrence,
so it counts the newline characters of `substr`. -/
def countNl : List Char → Nat
  | [] => 0
  | c :: cs => (if c = '\n' then 1 else 0) + countNl cs

/-- `getLocFromIndex` from `suggestion.ts`: slice the content up to `index`,
count newlines to get a 1-based line, fix the column at 0, and pass the
offset through unchanged. -/
def getLocFromIndex (content : List Char) (index : Int) : Loc :=
  let substr := jsSlice0 content index
  { line := 1 + countNl substr, col := 0, offset := index }

/-- JavaScript `contents.split("\n")`: the list of newline-separated chunks;
the empty string yields one empty chunk. -/
def splitNl : List Char → List (List Char)
  | [] => [[]]
  | c :: cs =>
    if c = '\n' then [] :: splitNl cs
    else
      match splitNl cs with
      | [] => [[c]]
      | l :: ls => (c :: l) :: ls

/-- The section-splitting loop of `addSuggestionHeading`.  `matchesB`
abstracts `line.match(section_delimeter_regex)` (truthy iff the configured
regex matches the line).  For each line: if the line matches the boundary
and the running cursor is non-zero, the current accumulator is closed as a
`Section` spanning `[cur_idx - cur_section.length, cur_idx)` and the line
starts a new accumulator; otherwise the line is appended (no separator).
The cursor advances by the raw line length (newlines are not counted).
The final accumulator is never flushed, exactly as in the source. -/
def splitGo (matchesB : List Char → Bool) :
    List (List Char) → List Char → Nat → List Section
  | [], _, _ => []
  | line :: rest, cur_section, cur_idx =>
    if matchesB line ∧ cur_idx ≠ 0 then
      { text := cur_section,
        start := (cur_idx : Int) - cur_section.length,
        «end» := (cur_idx : Int) } ::
        splitGo matchesB rest line (cur_idx + line.length)
    else
      splitGo matchesB rest (cur_section ++ line) (cur_idx + line.length)

/-- The full section splitter: split the raw contents into lines, then run
the accumulator loop from an empty accumulator and cursor 0. -/
def split (matchesB : List Char → Bool) (contents : List Char) : List Section :=
  splitGo matchesB (splitNl contents) [] 0

/-- One sub-match reported by the external Fuse.js engine
(`includeMatches: true`): its list of matched index ranges. -/
structure FuseMatch where
  indices : List (Int × Int)
  deriving DecidableEq, Repr

/-- One entry of `fuse.search(...)`: the matched section, its score
(`score?: number`, lower is better) and its sub-matches
(`matches?: readonly FuseResultMatch[]`). -/
structure FuseResult where
  item : Section
  score : Option ℚ
  «matches» : Option (List FuseMatch)
  deriving DecidableEq, Repr

/-- The index-aggregation loop of `addSuggestionHeading`:

```
const indices: SearchMatchPart[] = [];
for (let match of matches) {
  const match_indices = match.indices.slice();
  indices.concat(match_indices)
}
```

`Array.prototype.concat` returns a fresh array; the loop discards that
return value and never reassigns `indices`, so the accumulator is unchanged
by every iteration.  The fold mirrors that statement-for-statement. -/
def aggregateIndices (ms : List FuseMatch) : List (Int × Int) :=
  ms.foldl
    (fun indices m =>
      let _ := indices ++ m.indices
      indices)
    []

/-- The `SearchResult` the source stores in `this.match`. -/
structure SearchResult where
  score : ℚ
  «matches» : List (Int × Int)
  deriving DecidableEq, Repr

/-- A vault markdown file: its name and the contents `cachedRead` returns. -/
structure TFile where
  name : List Char
  contents : List Char
  deriving DecidableEq, Repr

/-- A candidate returned by the retrieval collaborator (`WASMSuggestion`). -/
structure WASMSuggestion where
  name : List Char
  header : List Char
  deriving DecidableEq, Repr

/-- The mutable `Suggestion` object: candidate data plus the optional
file, position and match filled in by resolution. -/
structure Suggestion where
  name : List Char
  header : List Char
  pos : Option Pos
  file : Option TFile
  «match» : Option SearchResult
  deriving DecidableEq, Repr

/-- The `Suggestion` constructor: copies the candidate's name and header;
`pos`, `file` and `match` start undefined. -/
def mkSuggestion (w : WASMSuggestion) : Suggestion :=
  { name := w.name, header := w.header, pos := none, file := none, «match» := none }

/-- `Suggestion.addSuggestionFile`: find the first vault file whose name
equals the suggestion's name (`files.find(file => file.name === this.name)`)
and store it (possibly `undefined`) in `this.file`. -/
def addSuggestionFile (files : List TFile) (s : Suggestion) : Suggestion :=
  { s with file := files.find? (fun f => f.name == s.name) }

/-- `Suggestion.addSuggestionHeading`, with the external Fuse.js engine
abstracted as `fuse` (the source constructs it with `includeMatches`,
`includeScore`, `ignoreLocation`, `minMatchCharLength: 2` over the `text`
key; its output list is all this code inspects).  If the suggestion has no
file, nothing happens.  Otherwise the contents are split into sections, the
header is searched, and for a non-empty result list the best (first) entry
is used: `this.match` is set only when `bestMatch.matches && bestMatch.score`
is truthy in JavaScript — `matches` defined (an array is truthy even when
empty) and `score` defined and non-zero — with the (bugged) aggregated
indices; `this.pos` is then set unconditionally from the best item's
offsets. -/
def addSuggestionHeading
    (fuse : List Section → List Char → List FuseResult)
    (matchesB : List Char → Bool) (s : Suggestion) : Suggestion :=
  match s.file with
  | none => s
  | some f =>
    let contents := f.contents
    let sections := split matchesB contents
    let result := fuse sections s.header
    match result with
    | [] => s
    | bestMatch :: _ =>
      let s1 :=
        match bestMatch.«matches», bestMatch.score with
        | some ms, some sc =>
          if sc ≠ 0 then
            { s with «match» := some { score := sc, «matches» := aggregateIndices ms } }
          else s
        | _, _ => s
      { s1 with
        pos := some { start := getLocFromIndex contents bestMatch.item.start,
                      «end» := getLocFromIndex contents bestMatch.item.«end» } }

/-- Resolution of one candidate, as performed inside `getSuggestions`:
construct the `Suggestion`, then
`suggestion.addSuggestionFile().addSuggestionHeading()`. -/
def resolve (files : List TFile)
    (fuse : List Section → List Char → List FuseResult)
    (matchesB : List Char → Bool) (w : WASMSuggestion) : Suggestion :=
  addSuggestionHeading fuse matchesB (addSuggestionFile files (mkSuggestion w))

/-! ### Trigger scanner (`LinkSuggest.onTrigger`) -/

/-- The opening bracket pair starts at index `i`: `line[i] = line[i+1] = '\x7b'`. -/
def hasOpenAt (line : List Char) (i : Nat) : Bool :=
  line.get? i == some '\x7b' && line.get? (i + 1) == some '\x7b'

/-- The closing bracket pair starts at index `j`: `line[j] = line[j+1] = '\x7d'`. -/
def hasCloseAt (line : List Char) (j : Nat) : Bool :=
  line.get? j == some '\x7d' && line.get? (j + 1) == some '\x7d'

/-- A match of the trigger pattern (two opening braces, any run of
non-newline characters, two closing braces) begins at index `i`: an opening
pair at `i` and, further right, a closing pair with no newline in between
(`.` in a JavaScript regex does not match a newline). -/
def rxMatchAt (line : List Char) (i : Nat) : Bool :=
  hasOpenAt line i &&
    (List.range line.length).any (fun j =>
      decide (i + 2 ≤ j) && hasCloseAt line j &&
        (List.range' (i + 2) (j - (i + 2))).all (fun k => line.get? k != some '\n'))

/-- `line.search(rx)`: the index of the leftmost position at which a match
of the pattern begins, or `none` where the source returns `-1`. -/
def searchIdx (line : List Char) : Option Nat :=
  (List.range line.length).find? (fun i => rxMatchAt line i)

/-- JavaScript `line.substring(a, b)`: both arguments are clamped to
`[0, line.length]` and swapped if out of order; the result is the slice
between them. -/
def jsSubstring (line : List Char) (a b : Nat) : List Char :=
  let a' := min a line.length
  let b' := min b line.length
  (line.take (max a' b')).drop (min a' b')

/-- The trigger span `onTrigger` returns (line numbers are dropped: both
`start.line` and `end.line` are the cursor's own line). -/
structure TriggerInfo where
  startCh : Nat
  endCh : Nat
  query : List Char
  deriving DecidableEq, Repr

/-- `LinkSuggest.onTrigger` on the current line and cursor column: search
for the bracket pattern; return `null` when it is absent or when
`cursor.ch <= matchedIdx + 1`; otherwise return the span starting at the
match, ending at `cursor.ch + 2`, with query `line.substring(matchedIdx + 2,
cursor.ch)`. -/
def onTrigger (line : List Char) (ch : Nat) : Option TriggerInfo :=
  match searchIdx line with
  | none => none
  | some matchedIdx =>
    if ch ≤ matchedIdx + 1 then none
    else some { startCh := matchedIdx, endCh := ch + 2,
                query := jsSubstring line (matchedIdx + 2) ch }

/-! ### Debounced suggestion pipeline (`LinkSuggest.getSuggestions`)

Each call to `getSuggestions` cancels the previous debouncer (if any),
creates a fresh one wrapping the async body below, invokes it (arming a
500 ms timer), and returns a promise resolved by the body's callback.
`Debouncer.cancel` (the external `obsidian.debounce` utility, standard
`setTimeout`/`clearTimeout` semantics) clears a timer that has not yet
fired; it cannot revoke a body that has already started running. -/

/-- The debounced async body of `getSuggestions`.  Output: the argument the
body passes to its callback `cb` (`none` when `cb` is never invoked — in
particular the empty-query branch does `return []`, which returns from the
void-typed body without calling `cb`) paired with whether
`plugin.get_suggestions` (the external retrieval collaborator) was called. -/
def debouncedBody (files : List TFile)
    (fuse : List Section → List Char → List FuseResult)
    (matchesB : List Char → Bool)
    (retrieve : List Char → List WASMSuggestion)
    (query : List Char) : Option (List Suggestion) × Bool :=
  if query = [] then (none, false)
  else
    let wasmSuggestions := retrieve query
    let suggestions := wasmSuggestions.map (resolve files fuse matchesB)
    (some suggestions, true)

/-- A pipeline session: one `getSuggestions` call, identified by a serial
number, carrying its context's query. -/
structure Sess where
  id : Nat
  query : List Char
  deriving DecidableEq, Repr

/-- Observable pipeline state.  `pending`: the session whose debounce timer
is armed and has not fired (creating a new debouncer cancels it).
`resolving`: sessions whose body has started and whose retrieval is in
flight.  `delivered`: ids of sessions whose callback has fired (their
promise resolved).  `calls`: ids of sessions that invoked the external
retrieval collaborator. -/
structure PState where
  nextId : Nat
  pending : Option Sess
  resolving : List Sess
  delivered : List Nat
  calls : List Nat
  deriving DecidableEq, Repr

/-- Events at the pipeline's suspension points. -/
inductive Ev where
  /-- A `getSuggestions` call with the given query: `this.debouncer.cancel()`
  on the previous debouncer, then a fresh debouncer is armed. -/
  | trigger (q : List Char)
  /-- The armed 500 ms timer elapses: the debounced body starts.  An empty
  query returns at once without retrieval and without calling `cb`;
  otherwise the body awaits the retrieval call. -/
  | timerFire
  /-- The retrieval awaited by session `sid` completes: the body resumes,
  resolves the candidates and calls `cb`, resolving that session's promise.
  Nothing consults any cancellation state here. -/
  | complete (sid : Nat)
  deriving DecidableEq, Repr

/-- The initial pipeline state (`this.debouncer === undefined`). -/
def initP : PState :=
  { nextId := 0, pending := none, resolving := [], delivered := [], calls := [] }

/-- One transition of the pipeline. -/
def stepP (st : PState) : Ev → PState
  | .trigger q =>
    { st with pending := some { id := st.nextId, query := q },
              nextId := st.nextId + 1 }
  | .timerFire =>
    match st.pending with
    | none => st
    | some s =>
      if s.query = [] then { st with pending := none }
      else { st with pending := none,
                     resolving := s :: st.resolving,
                     calls := s.id :: st.calls }
  | .complete sid =>
    if ∃ s ∈ st.resolving, s.id = sid then
      { st with resolving := st.resolving.filter (fun s => s.id ≠ sid),
                delivered := sid :: st.delivered }
    else st

/-- Run the pipeline from the initial state over a list of events. -/
def runP (evs : List Ev) : PState :=
  evs.foldl stepP initP

/-! ### Helper lemmas -/

theorem countNl_eq_count (l : List Char) : countNl l = l.count '\n' := by
  induction l with
  | nil => rfl
  | cons c cs ih =>
    by_cases hc : c = '\n'
    · simp [countNl, List.count_cons, ih, hc]
      omega
    · simp [countNl, List.count_cons, ih, hc]

theorem jsSlice0_nat (content : List Char) (offset : Nat) :
    jsSlice0 content (offset : Int) = content.take offset := by
  simp [jsSlice0]

theorem rxMatchAt_false_of_le (l : List Char) (i : Nat)
    (h : l.length ≤ i) : rxMatchAt l i = false := by
  have hnone : l[i]? = none := List.getElem?_eq_none h
  simp [rxMatchAt, hasOpenAt, List.get?_eq_getElem?, hnone]

theorem searchIdx_eq_none_iff (line : List Char) :
    searchIdx line = none ↔ ∀ i, rxMatchAt line i = false := by
  constructor
  · intro h i
    by_cases hi : i < line.length
    · have := List.find?_eq_none.mp h i (List.mem_range.mpr hi)
      simpa using this
    · exact rxMatchAt_false_of_le line i (by omega)
  · intro h
    apply List.find?_eq_none.mpr
    intro i _
    simp [h i]

theorem searchIdx_some_match (line : List Char) (i : Nat)
    (h : searchIdx line = some i) : rxMatchAt line i = true := by
  have := List.find?_some h
  simpa using this

theorem jsSubstring_of_le (line : List Char) (a b : Nat)
    (hab : a ≤ b) (hb : b ≤ line.length) :
    jsSubstring line a b = (line.take b).drop a := by
  simp only [jsSubstring]
  rw [min_eq_left (hab.trans hb), min_eq_left hb, max_eq_right hab,
    min_eq_left hab]

/-- Sections laid out properly from offset `p`: the first section starts at
`p`, each spans exactly the length of its text, starts are non-negative,
and each subsequent section starts where the previous one ended. -/
def proper : Int → List Section → Prop
  | _, [] => True
  | p, s :: rest =>
    s.start = p ∧ s.start + s.text.length = s.«end» ∧ 0 ≤ s.start ∧
      proper s.«end» rest

theorem splitGo_proper (matchesB : List Char → Bool) :
    ∀ (lines : List (List Char)) (cur : List Char) (idx : Nat),
      cur.length ≤ idx →
      proper ((idx : Int) - cur.length) (splitGo matchesB lines cur idx) := by
  intro lines
  induction lines with
  | nil => intro cur idx _; simp [splitGo, proper]
  | cons line rest ih =>
    intro cur idx hle
    by_cases hc : matchesB line ∧ idx ≠ 0
    · rw [splitGo, if_pos hc]
      refine ⟨rfl, by push_cast; ring, by push_cast; omega, ?_⟩
      have h2 := ih line (idx + line.length) (by omega)
      have heq : ((idx + line.length : Nat) : Int) - (line.length : Int) =
          (idx : Int) := by push_cast; ring
      rw [heq] at h2
      exact h2
    · rw [splitGo, if_neg hc]
      have h2 := ih (cur ++ line) (idx + line.length)
        (by rw [List.length_append]; omega)
      have heq : ((idx + line.length : Nat) : Int) -
          ((cur ++ line).length : Int) = (idx : Int) - cur.length := by
        rw [List.length_append]; push_cast; ring
      rw [heq] at h2
      exact h2

theorem proper_mem : ∀ (l : List Section) (p : Int), proper p l →
    ∀ s ∈ l, s.start + s.text.length = s.«end» ∧ 0 ≤ s.start := by
  intro l
  induction l with
  | nil => intro p _ s hs; cases hs
  | cons a rest ih =>
    intro p hp s hs
    rcases List.mem_cons.mp hs with rfl | hmem
    · exact ⟨hp.2.1, hp.2.2.1⟩
    · exact ih a.«end» hp.2.2.2 s hmem

theorem proper_chain : ∀ (l : List Section) (p : Int), proper p l →
    List.Chain' (fun a b => a.«end» = b.start) l := by
  intro l
  induction l with
  | nil => intro p _; exact List.chain'_nil
  | cons a rest ih =>
    intro p hp
    cases rest with
    | nil => exact List.chain'_singleton a
    | cons b rest' =>
      rw [List.chain'_cons]
      exact ⟨hp.2.2.2.1.symm, ih a.«end» hp.2.2.2⟩

/-- Ids in every field of the state are below `nextId`. -/
def boundedP (st : PState) : Prop :=
  (∀ s, st.pending = some s → s.id < st.nextId) ∧
  (∀ s ∈ st.resolving, s.id < st.nextId) ∧
  (∀ i ∈ st.delivered, i < st.nextId) ∧
  (∀ i ∈ st.calls, i < st.nextId)

/-- The pending session (if any) has not started resolving, has not been
delivered, and has made no retrieval call: its debouncer was freshly
created and its timer has not fired. -/
def freshPending (st : PState) : Prop :=
  ∀ s, st.pending = some s →
    (∀ s' ∈ st.resolving, s'.id ≠ s.id) ∧
      s.id ∉ st.delivered ∧ s.id ∉ st.calls

/-- Reachability invariant of the pipeline. -/
def invP (st : PState) : Prop := boundedP st ∧ freshPending st

/-- Session `a` is dead: it can never again appear anywhere in the state. -/
def deadIn (a : Nat) (st : PState) : Prop :=
  a < st.nextId ∧ (∀ s, st.pending = some s → s.id ≠ a) ∧
  (∀ s ∈ st.resolving, s.id ≠ a) ∧ a ∉ st.delivered ∧ a ∉ st.calls

theorem invP_initP : invP initP := by
  refine ⟨⟨?_, ?_, ?_, ?_⟩, ?_⟩ <;> simp [initP, boundedP, freshPending]

theorem invP_step (st : PState) (e : Ev) (h : invP st) : invP (stepP st e) := by
  obtain ⟨⟨hbp, hbr, hbd, hbc⟩, hf⟩ := h
  cases e with
  | trigger q =>
    refine ⟨⟨?_, ?_, ?_, ?_⟩, ?_⟩
    · intro s hs
      have hseq : ({ id := st.nextId, query := q } : Sess) = s := by
        simpa [stepP] using hs
      subst hseq
      show st.nextId < st.nextId + 1
      omega
    · intro s hs
      show s.id < st.nextId + 1
      exact Nat.lt_succ_of_lt (hbr s hs)
    · intro i hi
      show i < st.nextId + 1
      exact Nat.lt_succ_of_lt (hbd i hi)
    · intro i hi
      show i < st.nextId + 1
      exact Nat.lt_succ_of_lt (hbc i hi)
    · intro s hs
      have hseq : ({ id := st.nextId, query := q } : Sess) = s := by
        simpa [stepP] using hs
      subst hseq
      refine ⟨fun s' hs' => Nat.ne_of_lt (hbr s' hs'),
        fun hd => absurd (hbd _ hd) (lt_irrefl st.nextId),
        fun hc => absurd (hbc _ hc) (lt_irrefl st.nextId)⟩
  | timerFire =>
    cases hpd : st.pending with
    | none =>
      simpa [stepP, hpd] using ⟨⟨hbp, hbr, hbd, hbc⟩, hf⟩
    | some s =>
      have hs := hbp s hpd
      by_cases hq : s.query = []
      · have hst : stepP st Ev.timerFire = { st with pending := none } := by
          simp [stepP, hpd, hq]
        rw [hst]
        refine ⟨⟨?_, hbr, hbd, hbc⟩, ?_⟩
        · intro s' hs'
          simp at hs'
        · intro s' hs'
          simp at hs'
      · have hst : stepP st Ev.timerFire =
            { st with pending := none, resolving := s :: st.resolving,
                      calls := s.id :: st.calls } := by
          simp [stepP, hpd, hq]
        rw [hst]
        refine ⟨⟨?_, ?_, hbd, ?_⟩, ?_⟩
        · intro s' hs'
          simp at hs'
        · intro s' hs'
          rcases List.mem_cons.mp hs' with rfl | hmem
          · exact hs
          · exact hbr s' hmem
        · intro i hi
          rcases List.mem_cons.mp hi with rfl | hmem
          · exact hs
          · exact hbc i hmem
        · intro s' hs'
          simp at hs'
  | complete sid =>
    by_cases hin : ∃ s ∈ st.resolving, s.id = sid
    · obtain ⟨sw, hsw, hsweq⟩ := hin
      have hsid : sid < st.nextId := hsweq ▸ hbr sw hsw
      have hin' : ∃ s ∈ st.resolving, s.id = sid := ⟨sw, hsw, hsweq⟩
      have hst : stepP st (Ev.complete sid) =
          { st with resolving := st.resolving.filter (fun s => s.id ≠ sid),
                    delivered := sid :: st.delivered } := by
        simp [stepP, if_pos hin']
      rw [hst]
      refine ⟨⟨hbp, ?_, ?_, hbc⟩, ?_⟩
      · intro s hs
        exact hbr s (List.mem_of_mem_filter hs)
      · intro i hi
        rcases List.mem_cons.mp hi with rfl | hmem
        · exact hsid
        · exact hbd i hmem
      · intro s hsp
        obtain ⟨hres, hd, hc⟩ := hf s hsp
        refine ⟨fun s' hs' => hres s' (List.mem_of_mem_filter hs'), ?_, hc⟩
        intro hmem
        rcases List.mem_cons.mp hmem with heq | hmem'
        · exact hres sw hsw (hsweq.trans heq.symm)
        · exact hd hmem'
    · simpa [stepP, if_neg hin] using ⟨⟨hbp, hbr, hbd, hbc⟩, hf⟩

theorem invP_foldl : ∀ (evs : List Ev) (st : PState), invP st →
    invP (evs.foldl stepP st) := by
  intro evs
  induction evs with
  | nil => intro st h; exact h
  | cons e rest ih => intro st h; exact ih (stepP st e) (invP_step st e h)

theorem invP_runP (evs : List Ev) : invP (runP evs) :=
  invP_foldl evs initP invP_initP

theorem dead_step (a : Nat) (st : PState) (e : Ev) (h : deadIn a st) :
    deadIn a (stepP st e) := by
  obtain ⟨hn, hp, hr, hd, hc⟩ := h
  cases e with
  | trigger q =>
    refine ⟨by show a < st.nextId + 1; omega, ?_, hr, hd, hc⟩
    intro s hs
    have hseq : ({ id := st.nextId, query := q } : Sess) = s := by
      simpa [stepP] using hs
    subst hseq
    show st.nextId ≠ a
    omega
  | timerFire =>
    cases hpd : st.pending with
    | none => simpa [stepP, hpd] using ⟨hn, hp, hr, hd, hc⟩
    | some s =>
      have hsa := hp s hpd
      by_cases hq : s.query = []
      · have hst : stepP st Ev.timerFire = { st with pending := none } := by
          simp [stepP, hpd, hq]
        rw [hst]
        exact ⟨hn, by intro s' hs'; simp at hs', hr, hd, hc⟩
      · have hst : stepP st Ev.timerFire =
            { st with pending := none, resolving := s :: st.resolving,
                      calls := s.id :: st.calls } := by
          simp [stepP, hpd, hq]
        rw [hst]
        refine ⟨hn, by intro s' hs'; simp at hs', ?_, hd, ?_⟩
        · intro s' hs'
          rcases List.mem_cons.mp hs' with rfl | hmem
          · exact hsa
          · exact hr s' hmem
        · intro hmem
          rcases List.mem_cons.mp hmem with heq | hmem'
          · exact hsa heq.symm
          · exact hc hmem'
  | complete sid =>
    by_cases hin : ∃ s ∈ st.resolving, s.id = sid
    · obtain ⟨sw, hsw, hsweq⟩ := hin
      have hin' : ∃ s ∈ st.resolving, s.id = sid := ⟨sw, hsw, hsweq⟩
      have hst : stepP st (Ev.complete sid) =
          { st with resolving := st.resolving.filter (fun s => s.id ≠ sid),
                    delivered := sid :: st.delivered } := by
        simp [stepP, if_pos hin']
      rw [hst]
      refine ⟨hn, hp, ?_, ?_, hc⟩
      · intro s' hs'
        exact hr s' (List.mem_of_mem_filter hs')
      · intro hmem
        rcases List.mem_cons.mp hmem with heq | hmem'
        · exact hr sw hsw (hsweq.trans heq.symm)
        · exact hd hmem'
    · simpa [stepP, if_neg hin] using ⟨hn, hp, hr, hd, hc⟩

theorem dead_foldl : ∀ (evs : List Ev) (a : Nat) (st : PState),
    deadIn a st → deadIn a (evs.foldl stepP st) := by
  intro evs
  induction evs with
  | nil => intro a st h; exact h
  | cons e rest ih => intro a st h; exact ih a (stepP st e) (dead_step a st e h)

/-! ### Claim theorems -/

/-- Claim C7: for every text and every offset in `[0, len(text)]`, the
offset-to-position mapper returns `line` equal to one plus the number of
newline characters in `text[0:offset)`, `column` equal to 0, and the input
offset unchanged. -/
theorem getLocFromIndex_spec (text : List Char) (offset : Nat)
    (_h : offset ≤ text.length) :
    getLocFromIndex text (offset : Int) =
      { line := 1 + (text.take offset).count '\n', col := 0,
        offset := (offset : Int) } := by
  simp [getLocFromIndex, jsSlice0_nat, countNl_eq_count]

/-- Witness for C7: both "in particular" instances of the claim —
`toPosition(text, 0) = (line 1, col 0, offset 0)` and, for the text
`"a\nb\nc"`, `toPosition(text, 4).line = 3`. -/
theorem getLocFromIndex_spec_witness :
    getLocFromIndex ("a\nb\nc".toList) ((0 : Nat) : Int) =
      { line := 1, col := 0, offset := (0 : Int) } ∧
    (getLocFromIndex ("a\nb\nc".toList) ((4 : Nat) : Int)).line = 3 := by
  have h0 := getLocFromIndex_spec ("a\nb\nc".toList) 0 (by decide)
  have h4 := getLocFromIndex_spec ("a\nb\nc".toList) 4 (by decide)
  refine ⟨?_, ?_⟩
  · rw [h0]; decide
  · rw [h4]; decide

/-- Counterexample to C8 as stated: at text `"ab"` (length 2) and offset
`5 > 2` the mapper does not reject the call — the embedding is total
precisely because the source has no error path — and instead returns a
normal location: `slice` clamps to the whole text, so the line is 1. -/
theorem getLocFromIndex_no_error_counterexample :
    (("ab".toList : List Char).length : Int) < 5 ∧
    getLocFromIndex ("ab".toList) 5 = { line := 1, col := 0, offset := 5 } := by
  refine ⟨by decide, ?_⟩
  decide

/-- Claim C8 (amended): for every text and every offset strictly greater
than `len(text)`, the mapper raises no error; `content.slice(0, index)`
clamps to the full text, so the result is `line = 1 +` (the total newline
count of the text), `column = 0`, and the given offset passed through
unchanged. -/
theorem getLocFromIndex_out_of_range (text : List Char) (index : Int)
    (h : (text.length : Int) < index) :
    getLocFromIndex text index =
      { line := 1 + text.count '\n', col := 0, offset := index } := by
  have h0 : ¬ index < 0 := by omega
  have hlen : text.length ≤ index.toNat := by omega
  simp [getLocFromIndex, jsSlice0, h0, List.take_of_length_le hlen,
    countNl_eq_count]

/-- Witness for C8 (amended), at text `"a\nb"` and offset 9. -/
theorem getLocFromIndex_out_of_range_witness :
    getLocFromIndex ("a\nb".toList) 9 =
      { line := 1 + ("a\nb".toList).count '\n', col := 0, offset := 9 } :=
  getLocFromIndex_out_of_range ("a\nb".toList) 9 (by decide)

/-- Claim C5: for every candidate whose name matches no file in the corpus,
resolution returns a `Suggestion` with no file, no position and no match,
and raises no error — the whole pipeline is total, and both resolution
steps are no-ops past the failed lookup. -/
theorem resolve_lookup_miss (files : List TFile)
    (fuse : List Section → List Char → List FuseResult)
    (matchesB : List Char → Bool) (w : WASMSuggestion)
    (h : ∀ f ∈ files, f.name ≠ w.name) :
    resolve files fuse matchesB w =
      { name := w.name, header := w.header,
        pos := none, file := none, «match» := none } := by
  have hfind : files.find? (fun f => f.name == w.name) = none := by
    rw [List.find?_eq_none]
    intro f hf
    simpa using h f hf
  simp [resolve, addSuggestionFile, mkSuggestion, hfind, addSuggestionHeading]

/-- Witness for C5: a corpus holding only `other.md` together with the
candidate `missing.md`. -/
theorem resolve_lookup_miss_witness :
    resolve [{ name := "other.md".toList, contents := "a\nb".toList }]
        (fun _ _ => []) (fun _ => true)
        { name := "missing.md".toList, header := "Intro".toList } =
      { name := "missing.md".toList, header := "Intro".toList,
        pos := none, file := none, «match» := none } :=
  resolve_lookup_miss _ _ _ _ (by decide)

/-- Claim C9: whenever the fuzzy search returns a non-empty result list
whose best entry has score exactly 0 and defined sub-matches, resolution
sets the suggestion's position from the best section's offsets but leaves
`match` absent: the JavaScript guard `bestMatch.matches && bestMatch.score`
tests the score's truthiness and rejects the value 0. -/
theorem addSuggestionHeading_zero_score
    (fuse : List Section → List Char → List FuseResult)
    (matchesB : List Char → Bool) (s : Suggestion) (f : TFile)
    (bestMatch : FuseResult) (rest : List FuseResult) (ms : List FuseMatch)
    (hf : s.file = some f)
    (hres : fuse (split matchesB f.contents) s.header = bestMatch :: rest)
    (hsc : bestMatch.score = some 0)
    (hm : bestMatch.«matches» = some ms)
    (hmatch : s.«match» = none) :
    addSuggestionHeading fuse matchesB s =
      { s with
        pos := some { start := getLocFromIndex f.contents bestMatch.item.start,
                      «end» := getLocFromIndex f.contents bestMatch.item.«end» } } ∧
    (addSuggestionHeading fuse matchesB s).«match» = none := by
  have hmain : addSuggestionHeading fuse matchesB s =
      { s with
        pos := some { start := getLocFromIndex f.contents bestMatch.item.start,
                      «end» := getLocFromIndex f.contents bestMatch.item.«end» } } := by
    simp [addSuggestionHeading, hf, hres, hm, hsc]
  exact ⟨hmain, by rw [hmain]; simpa using hmatch⟩

/-- Witness for C9: a perfect (score-0) fuzzy result on file `a.md` with a
non-empty sub-match; the position is set, the match stays absent. -/
theorem addSuggestionHeading_zero_score_witness :
    addSuggestionHeading
        (fun _ _ => [{ item := { text := "ab".toList, start := 0, «end» := 2 },
                       score := some 0, «matches» := some [{ indices := [(0, 1)] }] }])
        (fun _ => true)
        { name := "a.md".toList, header := "ab".toList, pos := none,
          file := some { name := "a.md".toList, contents := "ab".toList },
          «match» := none } =
      { name := "a.md".toList, header := "ab".toList,
        pos := some { start := { line := 1, col := 0, offset := 0 },
                      «end» := { line := 1, col := 0, offset := 2 } },
        file := some { name := "a.md".toList, contents := "ab".toList },
        «match» := none } := by
  have h := addSuggestionHeading_zero_score
    (fun _ _ => [{ item := { text := "ab".toList, start := 0, «end» := 2 },
                   score := some 0, «matches» := some [{ indices := [(0, 1)] }] }])
    (fun _ => true)
    { name := "a.md".toList, header := "ab".toList, pos := none,
      file := some { name := "a.md".toList, contents := "ab".toList },
      «match» := none }
    { name := "a.md".toList, contents := "ab".toList }
    { item := { text := "ab".toList, start := 0, «end» := 2 },
      score := some 0, «matches» := some [{ indices := [(0, 1)] }] }
    [] [{ indices := [(0, 1)] }] rfl rfl rfl rfl rfl
  rw [h.1]; decide

/-- Claim C2 is a code bug, evaluated here: a best fuzzy result with a
non-zero score and a sub-match reporting the non-empty range list
`[(0, 1)]` still yields a stored `match` whose highlight-range list is
empty — the loop's `indices.concat(match_indices)` discards its result, so
no range ever reaches the returned `MatchResult`. -/
theorem aggregation_drops_indices :
    aggregateIndices [{ indices := [(0, 1)] }] = [] ∧
    (addSuggestionHeading
        (fun _ _ => [{ item := { text := "ab".toList, start := 0, «end» := 2 },
                       score := some 1, «matches» := some [{ indices := [(0, 1)] }] }])
        (fun _ => true)
        { name := "a.md".toList, header := "ab".toList, pos := none,
          file := some { name := "a.md".toList, contents := "ab".toList },
          «match» := none }).«match» =
      some { score := 1, «matches» := [] } := by
  refine ⟨rfl, ?_⟩
  decide

/-- Claim C4 is a code bug, evaluated here: splitting the two-line document
`"a\nb"` with a boundary pattern that matches every line yields a single
section (the final line stays in the never-flushed accumulator), so the
concatenation of section texts is `"a"`, not the document minus its
newlines. -/
theorem split_drops_last_line :
    split (fun _ => true) ("a\nb".toList) =
      [{ text := "a".toList, start := 0, «end» := 1 }] ∧
    ((split (fun _ => true) ("a\nb".toList)).map Section.text).flatten =
      "a".toList := by
  exact ⟨by decide, by decide⟩

/-- Claim C6: the trigger scanner returns none exactly when no bracket-pair
pattern occurs on the line or when the cursor column is at or before the
second character of the opening bracket (`ch ≤ matchedIdx + 1`, the source's
notion of being outside the bracketed region); otherwise it returns the
span starting at the match's start column, ending at `cursorColumn + 2`,
with query `line.substring(matchedIdx + 2, cursorColumn)` — for in-range
arguments, the slice of the line between the opening bracket (exclusive)
and the cursor column. -/
theorem onTrigger_spec (line : List Char) (ch : Nat) :
    (onTrigger line ch = none ↔
      (∀ i, rxMatchAt line i = false) ∨
        ∃ i, searchIdx line = some i ∧ ch ≤ i + 1) ∧
    (∀ i, searchIdx line = some i → i + 1 < ch →
      onTrigger line ch =
        some { startCh := i, endCh := ch + 2,
               query := jsSubstring line (i + 2) ch }) ∧
    (∀ a b, a ≤ b → b ≤ line.length →
      jsSubstring line a b = (line.take b).drop a) := by
  refine ⟨?_, ?_, fun a b hab hb => jsSubstring_of_le line a b hab hb⟩
  · cases h : searchIdx line with
    | none =>
      simp only [onTrigger, h]
      simp only [true_iff]
      exact Or.inl ((searchIdx_eq_none_iff line).mp h)
    | some i =>
      by_cases hch : ch ≤ i + 1
      · simp only [onTrigger, h, if_pos hch, true_iff]
        exact Or.inr ⟨i, rfl, hch⟩
      · simp only [onTrigger, h, if_neg hch]
        constructor
        · intro hfalse
          exact absurd hfalse (by simp)
        · rintro (hall | ⟨j, hj, hle⟩)
          · have hm := searchIdx_some_match line i h
            rw [hall i] at hm
            exact absurd hm (by simp)
          · injection hj with hj
            omega
  · intro i hi hlt
    simp [onTrigger, hi, show ¬ ch ≤ i + 1 by omega]

/-- Witness for C6: line `"\x7b\x7bab\x7d\x7d"` (double braces around
`ab`) and cursor column 4 yield the span `[0, 6)` with query `"ab"`; the
same line with cursor column 1 and a braceless line yield none. -/
theorem onTrigger_spec_witness :
    onTrigger ['\x7b', '\x7b', 'a', 'b', '\x7d', '\x7d'] 4 =
      some { startCh := 0, endCh := 6, query := ['a', 'b'] } ∧
    onTrigger ['\x7b', '\x7b', 'a', 'b', '\x7d', '\x7d'] 1 = none ∧
    onTrigger ['x', 'y'] 1 = none := by
  have hmid := (onTrigger_spec ['\x7b', '\x7b', 'a', 'b', '\x7d', '\x7d'] 4).2.1
    0 (by decide) (by decide)
  have hleft := (onTrigger_spec ['\x7b', '\x7b', 'a', 'b', '\x7d', '\x7d'] 1).1.mpr
    (Or.inr ⟨0, by decide, by decide⟩)
  have hnone := (onTrigger_spec ['x', 'y'] 1).1.mpr
    (Or.inl ((searchIdx_eq_none_iff ['x', 'y']).mp (by decide)))
  refine ⟨?_, hleft, hnone⟩
  rw [hmid]
  decide

/-- Claim C10: every `Section` emitted by the splitter spans exactly the
length of its text (`start + len(text) = end`), has a non-negative start,
and the sections come out in document order with each section starting
where the previous one ended. -/
theorem split_sections_invariants (matchesB : List Char → Bool)
    (contents : List Char) :
    (∀ s ∈ split matchesB contents,
      s.start + s.text.length = s.«end» ∧ 0 ≤ s.start) ∧
    List.Chain' (fun a b => a.«end» = b.start) (split matchesB contents) := by
  have hp : proper ((0 : Int) - ([] : List Char).length)
      (splitGo matchesB (splitNl contents) [] 0) :=
    splitGo_proper matchesB (splitNl contents) [] 0 (by simp)
  rw [show ((0 : Int) - ([] : List Char).length) = 0 by simp] at hp
  exact ⟨proper_mem _ 0 hp, proper_chain _ 0 hp⟩

/-- Witness for C10 on the document `"a\nb\nc"` split at every line: the
first emitted section spans `[0, 1)` with text `"a"`, and the emitted
section list is chained end-to-start. -/
theorem split_sections_invariants_witness :
    (({ text := "a".toList, start := 0, «end» := 1 } : Section).start +
        (({ text := "a".toList, start := 0, «end» := 1 } : Section)).text.length =
        ({ text := "a".toList, start := 0, «end» := 1 } : Section).«end» ∧
      (0 : Int) ≤ ({ text := "a".toList, start := 0, «end» := 1 } : Section).start) ∧
    List.Chain' (fun a b => a.«end» = b.start)
      (split (fun _ => true) ("a\nb\nc".toList)) := by
  have h := split_sections_invariants (fun _ => true) ("a\nb\nc".toList)
  exact ⟨h.1 { text := "a".toList, start := 0, «end» := 1 } (by decide), h.2⟩

/-- Counterexample to C1 as stated: in the trace
`trigger "x"; timerFire; trigger "y"; complete 0`, the second trigger
arrives when session 0's retrieval has started (it is resolving) and
nothing has been delivered — yet when session 0's retrieval completes, its
delivery callback still fires: `Debouncer.cancel` only clears a pending
timer and nothing checks a superseded flag before `cb(suggestions)`. -/
theorem stale_delivery_counterexample :
    (runP [Ev.trigger ['x'], Ev.timerFire]).resolving.map Sess.id = [0] ∧
    (runP [Ev.trigger ['x'], Ev.timerFire]).delivered = [] ∧
    0 ∈ (runP [Ev.trigger ['x'], Ev.timerFire, Ev.trigger ['y'],
      Ev.complete 0]).delivered := by
  refine ⟨by decide, by decide, by decide⟩

/-- Claim C1 (amended): a trigger event arriving while the earlier session
is still pending — its debounce timer armed, retrieval not yet started —
cancels it for good: that session's delivery callback never fires and its
retrieval is never issued, in any continuation of the trace.  (Once the
earlier session's retrieval has started, a new trigger no longer prevents
its delivery, as the counterexample shows.) -/
theorem cancel_while_pending (pre post : List Ev) (q : List Char) (s : Sess)
    (hp : (runP pre).pending = some s) :
    s.id ∉ (runP (pre ++ Ev.trigger q :: post)).delivered ∧
    s.id ∉ (runP (pre ++ Ev.trigger q :: post)).calls := by
  have hinv : invP (runP pre) := invP_runP pre
  have hb := hinv.1.1 s hp
  have hf := hinv.2 s hp
  have hdead : deadIn s.id (stepP (runP pre) (Ev.trigger q)) := by
    refine ⟨?_, ?_, hf.1, hf.2.1, hf.2.2⟩
    · show s.id < (runP pre).nextId + 1
      omega
    · intro s' hs'
      have hseq : ({ id := (runP pre).nextId, query := q } : Sess) = s' := by
        simpa [stepP] using hs'
      subst hseq
      show (runP pre).nextId ≠ s.id
      omega
  have hrun : runP (pre ++ Ev.trigger q :: post) =
      post.foldl stepP (stepP (runP pre) (Ev.trigger q)) := by
    simp [runP, List.foldl_append]
  have hfin := dead_foldl post s.id (stepP (runP pre) (Ev.trigger q)) hdead
  rw [hrun]
  exact ⟨hfin.2.2.2.1, hfin.2.2.2.2⟩

/-- Witness for C1 (amended): session 0 (`trigger "x"`) is superseded by
`trigger "y"` before its timer fires; after the new session's timer fires
and both completion events are offered, session 0 has neither delivered nor
called retrieval. -/
theorem cancel_while_pending_witness :
    (0 : Nat) ∉ (runP ([Ev.trigger ['x']] ++ Ev.trigger ['y'] ::
      [Ev.timerFire, Ev.complete 0, Ev.complete 1])).delivered ∧
    (0 : Nat) ∉ (runP ([Ev.trigger ['x']] ++ Ev.trigger ['y'] ::
      [Ev.timerFire, Ev.complete 0, Ev.complete 1])).calls :=
  cancel_while_pending [Ev.trigger ['x']]
    [Ev.timerFire, Ev.complete 0, Ev.complete 1] ['y']
    { id := 0, query := ['x'] } (by decide)

/-- Counterexample to C3 as stated: on the empty query the debounced body
returns before calling `cb` (`return []` inside the void-typed body reaches
no subscriber), so no empty result set is delivered — after
`trigger ""; timerFire` nothing has been delivered; it is true that the
retrieval collaborator is never consulted. -/
theorem emptyQuery_counterexample :
    debouncedBody [] (fun _ _ => []) (fun _ => true) (fun _ => []) [] =
      (none, false) ∧
    (runP [Ev.trigger [], Ev.timerFire]).delivered = [] ∧
    (runP [Ev.trigger [], Ev.timerFire]).calls = [] := by
  refine ⟨rfl, by decide, by decide⟩

/-- Claim C3 (amended): for every trigger event whose query is the empty
string, the pipeline performs no call to the external retrieval
collaborator and never invokes the subscriber's callback — no result set,
empty or otherwise, is ever delivered for that session, in any continuation
of the trace. -/
theorem emptyQuery_no_retrieval_no_delivery
    (files : List TFile) (fuse : List Section → List Char → List FuseResult)
    (matchesB : List Char → Bool) (retrieve : List Char → List WASMSuggestion)
    (pre post : List Ev) (s : Sess)
    (hp : (runP pre).pending = some s) (hq : s.query = []) :
    debouncedBody files fuse matchesB retrieve [] = (none, false) ∧
    s.id ∉ (runP (pre ++ Ev.timerFire :: post)).delivered ∧
    s.id ∉ (runP (pre ++ Ev.timerFire :: post)).calls := by
  refine ⟨rfl, ?_⟩
  have hinv : invP (runP pre) := invP_runP pre
  have hb := hinv.1.1 s hp
  have hf := hinv.2 s hp
  have hdead : deadIn s.id (stepP (runP pre) Ev.timerFire) := by
    have hst : stepP (runP pre) Ev.timerFire =
        { runP pre with pending := none } := by
      simp [stepP, hp, hq]
    rw [hst]
    exact ⟨hb, by intro s' hs'; simp at hs', hf.1, hf.2.1, hf.2.2⟩
  have hrun : runP (pre ++ Ev.timerFire :: post) =
      post.foldl stepP (stepP (runP pre) Ev.timerFire) := by
    simp [runP, List.foldl_append]
  have hfin := dead_foldl post s.id (stepP (runP pre) Ev.timerFire) hdead
  rw [hrun]
  exact ⟨hfin.2.2.2.1, hfin.2.2.2.2⟩

/-- Witness for C3 (amended): the empty-query session 0 never delivers and
never calls retrieval, even when its timer fires and a completion event for
it is offered afterwards. -/
theorem emptyQuery_no_retrieval_no_delivery_witness :
    debouncedBody [] (fun _ _ => []) (fun _ => false) (fun _ => []) [] =
      (none, false) ∧
    (0 : Nat) ∉ (runP ([Ev.trigger []] ++ Ev.timerFire ::
      [Ev.complete 0])).delivered ∧
    (0 : Nat) ∉ (runP ([Ev.trigger []] ++ Ev.timerFire ::
      [Ev.complete 0])).calls :=
  emptyQuery_no_retrieval_no_delivery [] (fun _ _ => []) (fun _ => false)
    (fun _ => []) [Ev.trigger []] [Ev.complete 0]
    { id := 0, query := [] } (by decide) rfl

end SemanticSearch
